import Mathlib

/-!
Verification of the TissueMAPS batch-job planning layer
(`tmlib/workflow/api.py`) and the multi-tenant sharded storage layer
(`tmlib/models/utils.py`) against the natural-language specification.

The Python code is shallowly embedded: file-system paths are modelled as
lists of components together with an absolute-path flag, the dynamically
typed JSON values stored under the "inputs"/"outputs" keys of a batch are
modelled by the inductive type `PyVal`, and every fallible operation returns
`Except PyError`.  Stateful operations of the storage layer are modelled as
functions producing a trace of the externally visible events they perform.
-/

set_option autoImplicit false

/-- Errors raised by the embedded Python code.  The constructors mirror
the exception classes appearing in the source (`TypeError`, `ValueError`,
`AttributeError`, the `tmlib.errors.WorkflowError` raised by
`read_batch_file`, the SQLAlchemy exception classes caught by
`get_or_create`, and `NameError` for references to undefined names). -/
inductive PyError where
  | typeError (msg : String)
  | valueError (msg : String)
  | attributeError (msg : String)
  | workflowError (msg : String)
  | nameError (name : String)
  | integrityError
  | noResultFound
  | multipleResultsFound
  | operationalError
  deriving DecidableEq, Repr

/-- A POSIX path, abstracted as the list of its non-empty components plus a
flag recording whether the path is absolute (starts with the separator).
`os.path.join` and `os.path.relpath` from the Python standard library are
modelled over this representation. -/
structure PyPath where
  isAbs : Bool
  comps : List String
  deriving DecidableEq, Repr

/-- `os.path.join(root, p)`: if `p` is absolute it replaces `root`,
otherwise the components are concatenated. -/
def joinPath (root p : PyPath) : PyPath :=
  if p.isAbs then p else ⟨root.isAbs, root.comps ++ p.comps⟩

/-- Length of the longest common component-wise prefix of two lists
(`posixpath.commonprefix` applied to the two split component lists). -/
def commonPrefixLen : List String → List String → Nat
  | a :: as, b :: bs => if a = b then commonPrefixLen as bs + 1 else 0
  | _, _ => 0

/-- `os.path.relpath(p, start)` for absolute `p` and `start`: strip the
common component prefix, then climb with `..` entries for the remaining
components of `start`; an empty result denotes the current directory. -/
def relpath (p start : PyPath) : PyPath :=
  let i := commonPrefixLen p.comps start.comps
  let relList := List.replicate (start.comps.length - i) ".." ++ p.comps.drop i
  if relList = [] then ⟨false, ["."]⟩ else ⟨false, relList⟩

/-- A dynamically typed value as found under the "inputs"/"outputs" keys of
a batch dictionary after JSON parsing: a path string, a number, a list, or
a string-keyed dictionary. -/
inductive PyVal where
  | str (p : PyPath)
  | int (n : Int)
  | list (vs : List PyVal)
  | dict (entries : List (String × PyVal))

/-- One job batch: the dictionary with keys "id", "inputs" and "outputs"
(`id` is only meaningful for run batches; the collect batch of the source
has no "id" key, the field is simply unused there). -/
structure Batch where
  id : Int
  inputs : PyVal
  outputs : PyVal

/-- The full batches structure `{run: [...], collect: ...?}`. -/
structure Batches where
  run : List Batch
  collect : Option Batch

/-- Rewrite a list of path strings with `f`, as done by the list
comprehensions in `_make_paths_relative` / `_make_paths_absolute`; an
element that is not a string makes the path operation raise. -/
def rewriteStrList (f : PyPath → PyPath) : List PyVal → Except PyError (List PyVal)
  | [] => .ok []
  | .str p :: rest => (rewriteStrList f rest).map (fun r => .str (f p) :: r)
  | _ :: _ => .error (.attributeError "path operation applied to a non-string value")

/-- Rewrite the inner values of a dictionary found under "inputs": a list
value is rewritten element-wise, any other value is passed to the path
operation directly (raising unless it is a string). -/
def rewriteDictEntries (f : PyPath → PyPath) :
    List (String × PyVal) → Except PyError (List (String × PyVal))
  | [] => .ok []
  | (k, .list ws) :: rest =>
    match rewriteStrList f ws with
    | .error e => .error e
    | .ok ws' => (rewriteDictEntries f rest).map (fun r => (k, .list ws') :: r)
  | (k, .str p) :: rest => (rewriteDictEntries f rest).map (fun r => (k, .str (f p)) :: r)
  | (_, _) :: _ => .error (.attributeError "path operation applied to a non-string value")

/-- Rewrite a list whose first element was a list: the source then treats
every element as a list of path strings.  (If a later element is in fact a
string the source silently iterates over its characters; that degenerate
case is modelled as an error and is excluded by every well-formedness
hypothesis below, so no theorem depends on it.) -/
def rewriteListOfLists (f : PyPath → PyPath) : List PyVal → Except PyError (List PyVal)
  | [] => .ok []
  | .list ws :: rest =>
    match rewriteStrList f ws with
    | .error e => .error e
    | .ok ws' => (rewriteListOfLists f rest).map (fun r => .list ws' :: r)
  | _ :: _ => .error (.typeError "iteration over a non-list element")

/-- The dynamic dispatch of `_make_paths_relative`/`_make_paths_absolute`
on one value of the "inputs" mapping: dictionaries are rewritten entry-wise,
lists element-wise (with the list-of-lists case decided by the first
element), anything else raises `TypeError`. -/
def rewriteInputVal (f : PyPath → PyPath) : PyVal → Except PyError PyVal
  | .dict es => (rewriteDictEntries f es).map .dict
  | .list [] => .ok (.list [])
  | .list (v :: vs) =>
    match v with
    | .list _ => (rewriteListOfLists f (v :: vs)).map .list
    | _ => (rewriteStrList f (v :: vs)).map .list
  | _ => .error (.typeError "Value of \"inputs\" must have type list or dict.")

/-- The dynamic dispatch on one value of the "outputs" mapping: lists as
for inputs, a plain string is rewritten directly, anything else raises
`TypeError`. -/
def rewriteOutputVal (f : PyPath → PyPath) : PyVal → Except PyError PyVal
  | .list [] => .ok (.list [])
  | .list (v :: vs) =>
    match v with
    | .list _ => (rewriteListOfLists f (v :: vs)).map .list
    | _ => (rewriteStrList f (v :: vs)).map .list
  | .str p => .ok (.str (f p))
  | _ => .error (.typeError "Value of \"outputs\" must have type list or str.")

/-- Apply a value rewriter to every entry of the "inputs" or "outputs"
mapping (the `for key, value in batch[...].items()` loops). -/
def rewriteIOEntries (g : PyVal → Except PyError PyVal) :
    List (String × PyVal) → Except PyError (List (String × PyVal))
  | [] => .ok []
  | (k, v) :: rest =>
    match g v with
    | .error e => .error e
    | .ok v' => (rewriteIOEntries g rest).map (fun r => (k, v') :: r)

/-- The "inputs"/"outputs" entry of a batch must itself be a dictionary for
`.items()` to be available. -/
def rewriteIOMap (g : PyVal → Except PyError PyVal) : PyVal → Except PyError PyVal
  | .dict es => (rewriteIOEntries g es).map .dict
  | _ => .error (.attributeError "items requires a dict")

/-- `ClusterRoutines._make_paths_relative`: every path under "inputs" and
"outputs" is rewritten relative to the workflow root. -/
def make_paths_relative (root : PyPath) (b : Batch) : Except PyError Batch :=
  match rewriteIOMap (rewriteInputVal (fun p => relpath p root)) b.inputs with
  | .error e => .error e
  | .ok ins =>
    match rewriteIOMap (rewriteOutputVal (fun p => relpath p root)) b.outputs with
    | .error e => .error e
    | .ok outs => .ok { b with inputs := ins, outputs := outs }

/-- `ClusterRoutines._make_paths_absolute`: every path under "inputs" and
"outputs" is joined onto the workflow root. -/
def make_paths_absolute (root : PyPath) (b : Batch) : Except PyError Batch :=
  match rewriteIOMap (rewriteInputVal (joinPath root)) b.inputs with
  | .error e => .error e
  | .ok ins =>
    match rewriteIOMap (rewriteOutputVal (joinPath root)) b.outputs with
    | .error e => .error e
    | .ok outs => .ok { b with inputs := ins, outputs := outs }

/-- Is the value a Python dictionary? -/
def isDict : PyVal → Bool
  | .dict _ => true
  | _ => false

/-- Is the value a Python list? -/
def isList : PyVal → Bool
  | .list _ => true
  | _ => false

/-- Are all values of a dictionary lists?  (`all(isinstance(o, list) for o
in batch["outputs"].values())`). -/
def dictValuesAllLists : PyVal → Bool
  | .dict es => es.all (fun e => isList e.2)
  | _ => false

/-- `ClusterRoutines._check_io_description`.  The second and sixth checks
of the source test `isinstance(batch["inputs"].values(), list)`; in
Python 2 `dict.values()` always returns a list, so those checks are
vacuously true and are modelled as such (they constrain nothing about the
elements).  No uniqueness check of output paths is performed. -/
def checkIoDescription (batches : Batches) : Option PyError :=
  if batches.run.all (fun b => isDict b.inputs) then
    if batches.run.all (fun b => isDict b.outputs) then
      if batches.run.all (fun b => dictValuesAllLists b.outputs) then
        match batches.collect with
        | none => none
        | some c =>
          if isDict c.inputs then
            if isDict c.outputs then
              if dictValuesAllLists c.outputs then none
              else some (.typeError "Elements of \"outputs\" must have type list")
            else some (.typeError "\"outputs\" must have type dictionary")
          else some (.typeError "\"inputs\" must have type dictionary")
      else some (.typeError "Elements of \"outputs\" must have type list.")
    else some (.typeError "\"outputs\" must have type dictionary")
  else some (.typeError "\"inputs\" must have type dictionary")

/-- The run-batch writing loop of `write_batch_files`: batches are
relativized and written one after the other; a failure aborts the loop but
the files of earlier batches have already been written.  A file is
identified by `some id` for the run batch with that id (standing for
`{step}_run_{id:06d}.batch.json`) and by `none` for the collect batch
(standing for `{step}_collect.batch.json`). -/
def writeRunBatches (root : PyPath) :
    List Batch → List (Option Int × Batch) × Option PyError
  | [] => ([], none)
  | b :: rest =>
    match make_paths_relative root b with
    | .error e => ([], some e)
    | .ok b' =>
      let r := writeRunBatches root rest
      ((some b.id, b') :: r.1, r.2)

/-- `ClusterRoutines.write_batch_files`: validate the structure, then write
each run batch (paths made relative) and finally the collect batch if
present.  The result is the list of written files together with the raised
error, if any. -/
def write_batch_files (root : PyPath) (batches : Batches) :
    List (Option Int × Batch) × Option PyError :=
  match checkIoDescription batches with
  | some e => ([], some e)
  | none =>
    let r := writeRunBatches root batches.run
    match r.2 with
    | some e => (r.1, some e)
    | none =>
      match batches.collect with
      | none => (r.1, none)
      | some c =>
        match make_paths_relative root c with
        | .error e => (r.1, some e)
        | .ok c' => (r.1 ++ [(none, c')], none)

/-- Lookup of a batch file by name in the written file list (the file
system read performed by `JsonReader`). -/
def findFile : List (Option Int × Batch) → Option Int → Option Batch
  | [], _ => none
  | (k, b) :: rest, name => if k = name then some b else findFile rest name

/-- `ClusterRoutines.read_batch_file`: a missing file raises
`tmlib.errors.WorkflowError` (the step was not yet initialized), otherwise
the parsed batch is returned with all paths made absolute. -/
def read_batch_file (root : PyPath) (files : List (Option Int × Batch))
    (name : Option Int) : Except PyError Batch :=
  match findFile files name with
  | none => .error (.workflowError
      "Job description file does not exist. Initialize the step first by calling the init method.")
  | some b => make_paths_absolute root b

/-! ### Job factory (`ClusterRoutines.create_run_jobs`) -/

/-- The dynamically typed `cores` argument of `create_run_jobs`: absent
(`None`), an integer, or a non-integer value which is truthy
(e.g. ``2.5``) or falsy (e.g. ``0.0``) under the Python `if cores:` test. -/
inductive PyCores where
  | none
  | int (n : Int)
  | nonIntTruthy
  | nonIntFalsy
  deriving DecidableEq, Repr

/-- Python truthiness of the `cores` argument. -/
def coresTruthy : PyCores → Bool
  | .none => false
  | .int n => n != 0
  | .nonIntTruthy => true
  | .nonIntFalsy => false

/-- Python truthiness of the optional `duration` argument (`None` and the
empty string are falsy). -/
def durationTruthy : Option String → Bool
  | Option.none => false
  | some s => s != ""

/-- Python truthiness of the optional `memory` argument (`None` and `0`
are falsy). -/
def memoryTruthy : Option Int → Bool
  | Option.none => false
  | some n => n != 0

/-- A run job as created by `create_run_jobs`: the CLI-reproducing argument
list plus the optional resource requests (walltime kept as the `HH:MM:SS`
string, memory in megabytes). -/
structure RunJob where
  stepName : String
  jobId : Int
  submissionId : Int
  arguments : List String
  requestedWalltime : Option String := Option.none
  requestedMemory : Option Int := Option.none
  requestedCores : Option Int := Option.none
  deriving DecidableEq, Repr

/-- `ClusterRoutines._build_run_command`: `[step, -v * verbosity,
experiment_id, run, --job, job_id]` (the experiment id is appended as a
number by the source; it is rendered as a string here for a uniformly
typed token list). -/
def buildRunCommand (stepName : String) (verbosity : Nat) (experimentId : Int)
    (jobId : Int) : List String :=
  [stepName] ++ List.replicate verbosity "-v" ++ [toString experimentId]
    ++ ["run", "--job", toString jobId]

/-- The per-job body of the `create_run_jobs` loop: build the job, then
apply each resource override behind its `if argument:` truthiness test;
a truthy `cores` is checked to be an integer (`TypeError` otherwise) and
positive (`ValueError` otherwise). -/
def makeRunJob (stepName : String) (verbosity : Nat) (experimentId : Int)
    (submissionId : Int) (duration : Option String) (memory : Option Int)
    (cores : PyCores) (j : Int) : Except PyError RunJob :=
  let job : RunJob :=
    { stepName := stepName, jobId := j, submissionId := submissionId,
      arguments := buildRunCommand stepName verbosity experimentId j }
  let job := if durationTruthy duration then { job with requestedWalltime := duration } else job
  let job := if memoryTruthy memory then { job with requestedMemory := memory } else job
  if coresTruthy cores then
    match cores with
    | .int n =>
      if n > 0 then .ok { job with requestedCores := some n }
      else .error (.valueError "The value of \"cores\" must be positive.")
    | _ => .error (.typeError "Argument \"cores\" must have type int.")
  else .ok job

/-- `ClusterRoutines.create_run_jobs`: one `RunJob` per id, added in order
to the `SingleRunJobCollection` (modelled as the list in insertion order);
a validation failure aborts the call and no collection is produced. -/
def create_run_jobs (stepName : String) (verbosity : Nat) (experimentId : Int)
    (submissionId : Int) (jobIds : List Int) (duration : Option String)
    (memory : Option Int) (cores : PyCores) : Except PyError (List RunJob) :=
  match jobIds with
  | [] => .ok []
  | j :: rest =>
    match makeRunJob stepName verbosity experimentId submissionId duration memory cores j with
    | .error e => .error e
    | .ok job =>
      match create_run_jobs stepName verbosity experimentId submissionId rest duration memory cores with
      | .error e => .error e
      | .ok jobs => .ok (job :: jobs)

/-! ### Shard partitioning (`_customize_distributed_tables`) -/

/-- The upper end of the positive signed 64-bit key space used by
`_customize_distributed_tables` (`total_max_value = 9223372036854775807`). -/
def totalMaxValue : Nat := 9223372036854775807

/-- The range and sequence bounds assigned to one shard of a distributed
table: `shardminvalue`/`shardmaxvalue` in `pg_dist_shard` plus the
`MINVALUE`/`MAXVALUE` of the created `{table}_id_seq_{shard}` sequence. -/
structure ShardSpec where
  shardId : Nat
  minValue : Nat
  maxValue : Nat
  seqMinValue : Nat
  seqMaxValue : Nat
  deriving DecidableEq, Repr

/-- The arithmetic core of `_customize_distributed_tables` for one table:
given the shard ids returned by `ORDER BY shardid`, shard `i` receives the
range `[i*batch_size + 1, (i+1)*batch_size]` with `batch_size =
total_max_value / n` (Python 2 integer division), and one id sequence with
exactly those bounds. -/
def customizeDistributedTables (shardIds : List Nat) : List ShardSpec :=
  let n := shardIds.length
  let batchSize := totalMaxValue / n
  (List.range n).map fun i =>
    { shardId := shardIds.getD i 0,
      minValue := i * batchSize + 1,
      maxValue := (i + 1) * batchSize,
      seqMinValue := i * batchSize + 1,
      seqMaxValue := (i + 1) * batchSize }

/-! ### `get_or_create` (`_SQLAlchemy_Session.get_or_create`) -/

/-- `_SQLAlchemy_Session.get_or_create`, parameterized over the outcomes of
its three database interactions: the initial unique lookup, the
insert-and-commit, and the re-read performed after a rollback.  `Row` is
the type of persisted instances and `newRow` the instance constructed from
the given attributes.  The `match` mirrors the `try/except` nesting of the
source: only `NoResultFound` from the first lookup and `IntegrityError`
from the insert are handled; every other exception is re-raised (the
source wraps an insert-time `TypeError` in a fresh `TypeError` about wrong
constructor arguments). -/
def get_or_create {Row : Type} (firstLookup : Except PyError Row)
    (insert : Option PyError) (newRow : Row) (reread : Except PyError Row) :
    Except PyError Row :=
  match firstLookup with
  | .ok r => .ok r
  | .error .noResultFound =>
    match insert with
    | Option.none => .ok newRow
    | some .integrityError =>
      -- rollback, then re-read exactly once
      (match reread with
       | .ok r => .ok r
       | .error e => .error e)
    | some (.typeError _) =>
      .error (.typeError "Wrong arguments for instantiation of model class.")
    | some e => .error e
  | .error e => .error e

/-! ### Bulk delete (`Query.delete`) -/

/-- The externally visible actions performed by `Query.delete`. -/
inductive DeleteEvent where
  | collectLocations (clsName : String)
  | dropSchema (schema : String)
  | rowDelete
  | expireAll
  | removeLocation (loc : String)
  deriving DecidableEq, Repr

/-- The errors `Query.delete` can raise: the two `ValueError`s of the
source and a failure of the underlying bulk row delete. -/
inductive DeleteError where
  | distributedError (clsName : String)
  | experimentError
  | rowDeleteError
  deriving DecidableEq, Repr

/-- A model class as seen by `Query.delete`: its name, whether its table
is distributed, whether it exposes a `_location` column or a `location`
property, the on-disk locations of the rows matched by the query
(`none` when a row's location is NULL), and — for `ExperimentReference` —
the ids of the matched experiments. -/
structure ModelCls where
  name : String
  isDistributed : Bool
  hasUnderscoreLocation : Bool
  hasLocation : Bool
  locations : List (Option String)
  experimentIds : List Nat
  deriving DecidableEq, Repr

/-- The schema name `experiment_{experiment_id}`. -/
def schemaName (experimentId : Nat) : String :=
  "experiment_" ++ toString experimentId

/-- The per-class loop at the start of `Query.delete`: raise for
distributed tables, collect the locations of filesystem-backed rows,
raise for `Experiment`, and drop the schema of every matched experiment
for `ExperimentReference`.  Returns the events performed so far together
with either the raised error or the collected locations. -/
def collectPhase : List ModelCls →
    Except (List DeleteEvent × DeleteError) (List DeleteEvent × List (Option String))
  | [] => .ok ([], [])
  | cls :: rest =>
    if cls.isDistributed then .error ([], .distributedError cls.name)
    else
      let collected :=
        if cls.hasUnderscoreLocation then ([DeleteEvent.collectLocations cls.name], cls.locations)
        else if cls.hasLocation then ([DeleteEvent.collectLocations cls.name], cls.locations)
        else ([], [])
      if cls.name = "Experiment" then .error (collected.1, .experimentError)
      else
        let schemaEvts :=
          if cls.name = "ExperimentReference" then
            cls.experimentIds.map (fun i => DeleteEvent.dropSchema (schemaName i))
          else []
        match collectPhase rest with
        | .error (evts, e) => .error (collected.1 ++ schemaEvts ++ evts, e)
        | .ok (evts, locs) => .ok (collected.1 ++ schemaEvts ++ evts, collected.2 ++ locs)

/-- `Query.delete`: run the per-class loop, then perform the bulk row
delete via raw SQL, expire the session, and only afterwards remove the
collected non-NULL locations from disk.  A failing row delete (modelled by
`rowDeleteFails`) propagates before the session is expired or any location
is removed. -/
def queryDelete (classes : List ModelCls) (rowDeleteFails : Bool) :
    List DeleteEvent × Option DeleteError :=
  match collectPhase classes with
  | .error (evts, e) => (evts, some e)
  | .ok (evts, locs) =>
    if rowDeleteFails then (evts, some .rowDeleteError)
    else
      (evts ++ [DeleteEvent.rowDelete, DeleteEvent.expireAll]
        ++ (locs.filterMap id).map DeleteEvent.removeLocation, none)

/-! ### Session and raw-connection entry (`ExperimentSession.__enter__`,
`ExperimentConnection.__enter__`) -/

/-- The steps performed while entering an experiment-scoped session or raw
connection. -/
inductive EnterEvent where
  | createSchema
  | createTables
  | customizeTables
  | setSearchPath
  | openSession
  | openCursor
  deriving DecidableEq, Repr

/-- `ExperimentSession.__enter__`: check/create the schema; on first
creation instantiate every experiment-scoped table and customize the
distributed tables, in that order, before the search path is set and the
session is handed to the caller. -/
def experimentSessionEnter (schemaExists : Bool) : List EnterEvent × Option PyError :=
  if schemaExists then
    ([EnterEvent.setSearchPath, EnterEvent.openSession], none)
  else
    ([EnterEvent.createSchema, EnterEvent.createTables, EnterEvent.customizeTables,
      EnterEvent.setSearchPath, EnterEvent.openSession], none)

/-- `ExperimentConnection.__enter__`: same schema bootstrap as the
session, but the source calls `_customize_distributed_tables(connection,
self._schema)` where `connection` is an undefined name (the parallel
session code uses its local `connection`; here it should be
`self._connection`), so the first entry for a not-yet-existing schema
raises `NameError` after the tables were created and never customizes the
distributed tables. -/
def experimentConnectionEnter (schemaExists : Bool) : List EnterEvent × Option PyError :=
  if schemaExists then
    ([EnterEvent.setSearchPath, EnterEvent.openCursor], none)
  else
    ([EnterEvent.createSchema, EnterEvent.createTables], some (.nameError "connection"))

/-! ### Well-formed batches and the relativize/absolutize round trip -/

/-- Component-wise test that the first list is an initial segment of the
second. -/
def listInitSegB : List String → List String → Bool
  | [], _ => true
  | _ :: _, [] => false
  | a :: as, b :: bs => a = b && listInitSegB as bs

/-- `p` is an absolute path lying strictly below the absolute root
directory `root`. -/
def strictlyUnder (root p : PyPath) : Bool :=
  p.isAbs && root.isAbs && listInitSegB root.comps p.comps
    && decide (root.comps.length < p.comps.length)

/-- Every element is a path string strictly under the root. -/
def wsPaths (root : PyPath) (vs : List PyVal) : Bool :=
  vs.all fun v =>
    match v with
    | .str p => strictlyUnder root p
    | _ => false

/-- Every element is a list of path strings strictly under the root. -/
def wsPathLists (root : PyPath) (vs : List PyVal) : Bool :=
  vs.all fun v =>
    match v with
    | .list ws => wsPaths root ws
    | _ => false

/-- A list-shaped container value: a (possibly empty) list of path strings
or, when its first element is a list, a list of lists of path strings. -/
def wsListVal (root : PyPath) : PyVal → Bool
  | .list vs =>
    match vs with
    | [] => true
    | .list _ :: _ => wsPathLists root vs
    | _ :: _ => wsPaths root vs
  | _ => false

/-- An inner value of a dictionary under "inputs": a single path string or
a list of path strings. -/
def wsDictInner (root : PyPath) : PyVal → Bool
  | .str p => strictlyUnder root p
  | .list ws => wsPaths root ws
  | _ => false

/-- A value of the "inputs" mapping: a dictionary of inner values or a
list-shaped container. -/
def wsInputVal (root : PyPath) : PyVal → Bool
  | .dict es => es.all fun e => wsDictInner root e.2
  | v => wsListVal root v

/-- The "inputs"/"outputs" entry is a dictionary all of whose values
satisfy `valOk`. -/
def wsIOMapWith (valOk : PyVal → Bool) : PyVal → Bool
  | .dict es => es.all fun e => valOk e.2
  | _ => false

/-- A batch that is valid for writing: "inputs" is a mapping of supported
input containers, "outputs" is a mapping of list containers (the shape
`_check_io_description` accepts), and every contained path is absolute and
strictly under the workflow root. -/
def wellFormedWriteBatch (root : PyPath) (b : Batch) : Bool :=
  wsIOMapWith (wsInputVal root) b.inputs && wsIOMapWith (wsListVal root) b.outputs

theorem listInitSegB_iff (a b : List String) :
    listInitSegB a b = true ↔ ∃ t, b = a ++ t := by
  induction a generalizing b with
  | nil => simp [listInitSegB]
  | cons x xs ih =>
    cases b with
    | nil =>
      simp only [listInitSegB, List.cons_append]
      constructor
      · intro h; cases h
      · rintro ⟨t, ht⟩; cases ht
    | cons y ys =>
      simp only [listInitSegB, Bool.and_eq_true, decide_eq_true_eq, ih]
      constructor
      · rintro ⟨rfl, t, rfl⟩; exact ⟨t, rfl⟩
      · rintro ⟨t, ht⟩
        injection ht with h1 h2
        exact ⟨h1.symm, t, h2⟩

theorem commonPrefixLen_append (a t : List String) :
    commonPrefixLen (a ++ t) a = a.length := by
  induction a with
  | nil => cases t <;> rfl
  | cons x xs ih => simp [commonPrefixLen, ih]

theorem drop_append_length (a t : List String) : (a ++ t).drop a.length = t := by
  induction a with
  | nil => rfl
  | cons x xs ih => simp [ih]

/-- Relativization followed by re-joining is the identity on absolute
paths strictly under the workflow root. -/
theorem relpath_join_roundtrip (root p : PyPath) (h : strictlyUnder root p = true) :
    relpath p root = ⟨false, p.comps.drop root.comps.length⟩ ∧
      joinPath root (relpath p root) = p := by
  have h' := h
  simp only [strictlyUnder, Bool.and_eq_true, decide_eq_true_eq] at h'
  obtain ⟨⟨⟨hp, hr⟩, hseg⟩, hlen⟩ := h'
  obtain ⟨t, ht⟩ := (listInitSegB_iff root.comps p.comps).mp hseg
  have htne : t ≠ [] := by
    intro hte
    rw [hte, List.append_nil] at ht
    rw [ht] at hlen
    exact lt_irrefl _ hlen
  have hdrop : p.comps.drop root.comps.length = t := by
    rw [ht]; exact drop_append_length _ _
  have hcpl : commonPrefixLen p.comps root.comps = root.comps.length := by
    rw [ht]; exact commonPrefixLen_append _ _
  have hrel : relpath p root = ⟨false, t⟩ := by
    unfold relpath
    simp only [hcpl, Nat.sub_self, List.replicate_zero, List.nil_append, hdrop]
    simp [htne]
  refine ⟨by rw [hrel, hdrop], ?_⟩
  rw [hrel]
  unfold joinPath
  simp only [Bool.false_eq_true, if_false]
  cases p with
  | mk pa pc =>
    simp only at hp ht
    subst hp
    rw [hr, ht]

theorem rt_strList (root : PyPath) (vs : List PyVal) (h : wsPaths root vs = true) :
    ∃ vs', rewriteStrList (fun p => relpath p root) vs = .ok vs' ∧
      rewriteStrList (joinPath root) vs' = .ok vs ∧
      vs'.length = vs.length ∧ ∀ v' ∈ vs', ∃ q, v' = PyVal.str q := by
  induction vs with
  | nil => exact ⟨[], rfl, rfl, rfl, by simp⟩
  | cons v vs ih =>
    simp only [wsPaths, List.all_cons, Bool.and_eq_true] at h
    obtain ⟨hv, hvs⟩ := h
    obtain ⟨vs', h1, h2, h3, h4⟩ := ih hvs
    cases v with
    | str p =>
      obtain ⟨_, hjoin⟩ := relpath_join_roundtrip root p hv
      refine ⟨.str (relpath p root) :: vs', ?_, ?_, by simp [h3], ?_⟩
      · simp [rewriteStrList, h1, Except.map]
      · simp [rewriteStrList, h2, Except.map, hjoin]
      · intro v' hv'
        rcases List.mem_cons.mp hv' with h' | h'
        · exact ⟨relpath p root, h'⟩
        · exact h4 v' h'
    | int n => simp at hv
    | list ws => simp at hv
    | dict es => simp at hv

theorem rt_listOfLists (root : PyPath) (vs : List PyVal) (h : wsPathLists root vs = true) :
    ∃ vs', rewriteListOfLists (fun p => relpath p root) vs = .ok vs' ∧
      rewriteListOfLists (joinPath root) vs' = .ok vs ∧
      vs'.length = vs.length ∧ ∀ v' ∈ vs', ∃ ws, v' = PyVal.list ws := by
  induction vs with
  | nil => exact ⟨[], rfl, rfl, rfl, by simp⟩
  | cons v vs ih =>
    simp only [wsPathLists, List.all_cons, Bool.and_eq_true] at h
    obtain ⟨hv, hvs⟩ := h
    obtain ⟨vs', h1, h2, h3, h4⟩ := ih hvs
    cases v with
    | list ws =>
      obtain ⟨ws', hw1, hw2, _, _⟩ := rt_strList root ws hv
      refine ⟨.list ws' :: vs', ?_, ?_, by simp [h3], ?_⟩
      · simp [rewriteListOfLists, hw1, h1, Except.map]
      · simp [rewriteListOfLists, hw2, h2, Except.map]
      · intro v' hv'
        rcases List.mem_cons.mp hv' with h' | h'
        · exact ⟨ws', h'⟩
        · exact h4 v' h'
    | str p => simp at hv
    | int n => simp at hv
    | dict es => simp at hv

theorem rt_dictEntries (root : PyPath) (es : List (String × PyVal))
    (h : ∀ e ∈ es, wsDictInner root e.2 = true) :
    ∃ es', rewriteDictEntries (fun p => relpath p root) es = .ok es' ∧
      rewriteDictEntries (joinPath root) es' = .ok es := by
  induction es with
  | nil => exact ⟨[], rfl, rfl⟩
  | cons e es ih =>
    obtain ⟨es', h1, h2⟩ := ih (fun e' he' => h e' (List.mem_cons_of_mem _ he'))
    have he := h e (List.mem_cons_self _ _)
    obtain ⟨k, v⟩ := e
    cases v with
    | str p =>
      obtain ⟨_, hjoin⟩ := relpath_join_roundtrip root p he
      exact ⟨(k, .str (relpath p root)) :: es',
        by simp [rewriteDictEntries, h1, Except.map],
        by simp [rewriteDictEntries, h2, Except.map, hjoin]⟩
    | list ws =>
      obtain ⟨ws', hw1, hw2, _, _⟩ := rt_strList root ws he
      exact ⟨(k, .list ws') :: es',
        by simp [rewriteDictEntries, hw1, h1, Except.map],
        by simp [rewriteDictEntries, hw2, h2, Except.map]⟩
    | int n => simp [wsDictInner] at he
    | dict es2 => simp [wsDictInner] at he

theorem rt_listVal (root : PyPath) (v : PyVal) (h : wsListVal root v = true) :
    ∃ v', rewriteOutputVal (fun p => relpath p root) v = .ok v' ∧
      rewriteOutputVal (joinPath root) v' = .ok v ∧
      rewriteInputVal (fun p => relpath p root) v = .ok v' ∧
      rewriteInputVal (joinPath root) v' = .ok v := by
  cases v with
  | list vs =>
    cases vs with
    | nil => exact ⟨.list [], rfl, rfl, rfl, rfl⟩
    | cons w ws =>
      cases w with
      | list w0 =>
        have h' : wsPathLists root (PyVal.list w0 :: ws) = true := h
        obtain ⟨vs', h1, h2, h3, h4⟩ := rt_listOfLists root (PyVal.list w0 :: ws) h'
        cases vs' with
        | nil => simp at h3
        | cons w' ws' =>
          obtain ⟨w0', hw0'⟩ := h4 w' (List.mem_cons_self _ _)
          subst hw0'
          refine ⟨.list (PyVal.list w0' :: ws'), ?_, ?_, ?_, ?_⟩ <;>
            simp [rewriteOutputVal, rewriteInputVal, h1, h2, Except.map]
      | str p =>
        have h' : wsPaths root (PyVal.str p :: ws) = true := h
        obtain ⟨vs', h1, h2, h3, h4⟩ := rt_strList root (PyVal.str p :: ws) h'
        cases vs' with
        | nil => simp at h3
        | cons w' ws' =>
          obtain ⟨q, hq⟩ := h4 w' (List.mem_cons_self _ _)
          subst hq
          refine ⟨.list (PyVal.str q :: ws'), ?_, ?_, ?_, ?_⟩ <;>
            simp [rewriteOutputVal, rewriteInputVal, h1, h2, Except.map]
      | int n => simp [wsListVal, wsPaths] at h
      | dict es => simp [wsListVal, wsPaths] at h
  | str p => simp [wsListVal] at h
  | int n => simp [wsListVal] at h
  | dict es => simp [wsListVal] at h

theorem rt_inputVal (root : PyPath) (v : PyVal) (h : wsInputVal root v = true) :
    ∃ v', rewriteInputVal (fun p => relpath p root) v = .ok v' ∧
      rewriteInputVal (joinPath root) v' = .ok v := by
  cases v with
  | dict es =>
    have h' : ∀ e ∈ es, wsDictInner root e.2 = true := by
      simp only [wsInputVal, List.all_eq_true] at h
      intro e he; exact h e he
    obtain ⟨es', h1, h2⟩ := rt_dictEntries root es h'
    exact ⟨.dict es', by simp [rewriteInputVal, h1, Except.map],
      by simp [rewriteInputVal, h2, Except.map]⟩
  | list vs =>
    obtain ⟨v', h1, h2, h3, h4⟩ := rt_listVal root (.list vs) h
    exact ⟨v', h3, h4⟩
  | str p => simp [wsInputVal, wsListVal] at h
  | int n => simp [wsInputVal, wsListVal] at h

theorem rt_ioEntries (g g' : PyVal → Except PyError PyVal) (es : List (String × PyVal))
    (h : ∀ e ∈ es, ∃ v', g e.2 = .ok v' ∧ g' v' = .ok e.2) :
    ∃ es', rewriteIOEntries g es = .ok es' ∧ rewriteIOEntries g' es' = .ok es := by
  induction es with
  | nil => exact ⟨[], rfl, rfl⟩
  | cons e es ih =>
    obtain ⟨es', h1, h2⟩ := ih (fun e' he' => h e' (List.mem_cons_of_mem _ he'))
    obtain ⟨v', hv1, hv2⟩ := h e (List.mem_cons_self _ _)
    exact ⟨(e.1, v') :: es',
      by simp [rewriteIOEntries, hv1, h1, Except.map],
      by simp [rewriteIOEntries, hv2, h2, Except.map]⟩

/-- A batch that is valid for writing relativizes successfully, and
absolutizing the result restores the original batch exactly. -/
theorem rt_batch (root : PyPath) (b : Batch) (h : wellFormedWriteBatch root b = true) :
    ∃ b', make_paths_relative root b = .ok b' ∧
      make_paths_absolute root b' = .ok b ∧ b'.id = b.id := by
  simp only [wellFormedWriteBatch, Bool.and_eq_true] at h
  obtain ⟨hin, hout⟩ := h
  cases b with
  | mk bid bin bout =>
    cases bin with
    | dict ies =>
      cases bout with
      | dict oes =>
        simp only [wsIOMapWith, List.all_eq_true] at hin hout
        obtain ⟨ies', hi1, hi2⟩ :=
          rt_ioEntries (rewriteInputVal (fun p => relpath p root))
            (rewriteInputVal (joinPath root)) ies
            (fun e he => rt_inputVal root e.2 (hin e he))
        obtain ⟨oes', ho1, ho2⟩ :=
          rt_ioEntries (rewriteOutputVal (fun p => relpath p root))
            (rewriteOutputVal (joinPath root)) oes
            (fun e he => by
              obtain ⟨v', a1, a2, _, _⟩ := rt_listVal root e.2 (hout e he)
              exact ⟨v', a1, a2⟩)
        refine ⟨⟨bid, .dict ies', .dict oes'⟩, ?_, ?_, rfl⟩ <;>
          simp [make_paths_relative, make_paths_absolute, rewriteIOMap,
            hi1, hi2, ho1, ho2, Except.map]
      | str p => simp [wsIOMapWith] at hout
      | int n => simp [wsIOMapWith] at hout
      | list vs => simp [wsIOMapWith] at hout
    | str p => simp [wsIOMapWith] at hin
    | int n => simp [wsIOMapWith] at hin
    | list vs => simp [wsIOMapWith] at hin

theorem wsIOMapWith_isDict (f : PyVal → Bool) (v : PyVal) (h : wsIOMapWith f v = true) :
    isDict v = true := by
  cases v <;> simp_all [wsIOMapWith, isDict]

theorem wsListVal_isList (root : PyPath) (v : PyVal) (h : wsListVal root v = true) :
    isList v = true := by
  cases v <;> simp_all [wsListVal, isList]

theorem wsIOMapWith_valuesAllLists (root : PyPath) (v : PyVal)
    (h : wsIOMapWith (wsListVal root) v = true) : dictValuesAllLists v = true := by
  cases v with
  | dict es =>
    simp only [wsIOMapWith, List.all_eq_true] at h
    simp only [dictValuesAllLists, List.all_eq_true]
    exact fun e he => wsListVal_isList root e.2 (h e he)
  | str p => simp [wsIOMapWith] at h
  | int n => simp [wsIOMapWith] at h
  | list vs => simp [wsIOMapWith] at h

/-- Batches that are well formed for writing pass `_check_io_description`. -/
theorem wf_checkIo (root : PyPath) (batches : Batches)
    (hrun : ∀ b ∈ batches.run, wellFormedWriteBatch root b = true)
    (hcol : ∀ c, batches.collect = some c → wellFormedWriteBatch root c = true) :
    checkIoDescription batches = none := by
  have hwf : ∀ b ∈ batches.run, wsIOMapWith (wsInputVal root) b.inputs = true ∧
      wsIOMapWith (wsListVal root) b.outputs = true := by
    intro b hb
    have := hrun b hb
    simpa [wellFormedWriteBatch] using this
  have h1 : batches.run.all (fun b => isDict b.inputs) = true := by
    simp only [List.all_eq_true]
    exact fun b hb => wsIOMapWith_isDict _ _ (hwf b hb).1
  have h2 : batches.run.all (fun b => isDict b.outputs) = true := by
    simp only [List.all_eq_true]
    exact fun b hb => wsIOMapWith_isDict _ _ (hwf b hb).2
  have h3 : batches.run.all (fun b => dictValuesAllLists b.outputs) = true := by
    simp only [List.all_eq_true]
    exact fun b hb => wsIOMapWith_valuesAllLists root _ (hwf b hb).2
  unfold checkIoDescription
  rw [h1, h2, h3]
  simp only [if_true]
  cases hc : batches.collect with
  | none => rfl
  | some c =>
    have := hcol c hc
    simp only [wellFormedWriteBatch, Bool.and_eq_true] at this
    simp [wsIOMapWith_isDict _ _ this.1, wsIOMapWith_isDict _ _ this.2,
      wsIOMapWith_valuesAllLists root _ this.2]

/-- The run-batch writing loop succeeds on well-formed batches and the
written files pair up with the original batches: the file name carries the
batch id and absolutizing the stored content restores the original. -/
theorem writeRun_ok (root : PyPath) (bs : List Batch)
    (h : ∀ b ∈ bs, wellFormedWriteBatch root b = true) :
    ∃ files, writeRunBatches root bs = (files, none) ∧
      List.Forall₂ (fun (b : Batch) (f : Option Int × Batch) =>
        f.1 = some b.id ∧ make_paths_absolute root f.2 = .ok b) bs files := by
  induction bs with
  | nil => exact ⟨[], rfl, List.Forall₂.nil⟩
  | cons b bs ih =>
    obtain ⟨files, h1, h2⟩ := ih (fun b' hb' => h b' (List.mem_cons_of_mem _ hb'))
    obtain ⟨b', hb1, hb2, _⟩ := rt_batch root b (h b (List.mem_cons_self _ _))
    refine ⟨(some b.id, b') :: files, ?_, List.Forall₂.cons ⟨rfl, hb2⟩ h2⟩
    simp [writeRunBatches, hb1, h1]

theorem findFile_append (l1 l2 : List (Option Int × Batch)) (name : Option Int) :
    findFile (l1 ++ l2) name =
      match findFile l1 name with
      | some b => some b
      | none => findFile l2 name := by
  induction l1 with
  | nil => rfl
  | cons f l1 ih =>
    by_cases hk : f.1 = name
    · simp [findFile, hk]
    · simp [findFile, hk, ih]

theorem findFile_none_of_keys (files : List (Option Int × Batch))
    (h : ∀ f ∈ files, f.1 ≠ none) : findFile files none = none := by
  induction files with
  | nil => rfl
  | cons f files ih =>
    have hf := h f (List.mem_cons_self _ _)
    simp only [findFile]
    rw [if_neg hf]
    exact ih (fun f' hf' => h f' (List.mem_cons_of_mem _ hf'))

theorem findFile_of_forall₂ (root : PyPath) (bs : List Batch)
    (files : List (Option Int × Batch))
    (hf : List.Forall₂ (fun (b : Batch) (f : Option Int × Batch) =>
      f.1 = some b.id ∧ make_paths_absolute root f.2 = .ok b) bs files)
    (hnd : (bs.map Batch.id).Nodup) (b : Batch) (hb : b ∈ bs) :
    ∃ rb, findFile files (some b.id) = some rb ∧ make_paths_absolute root rb = .ok b := by
  induction hf with
  | nil => cases hb
  | @cons b0 f0 bs' files' hhead _ ih =>
    rcases List.mem_cons.mp hb with rfl | hb'
    · exact ⟨f0.2, by cases f0 with
        | mk k c => simp only at hhead; simp [findFile, hhead.1], hhead.2⟩
    · have hne : f0.1 ≠ some b.id := by
        rw [hhead.1]
        intro hcontra
        injection hcontra with hid
        have : b.id ∈ bs'.map Batch.id := List.mem_map_of_mem _ hb'
        rw [← hid] at this
        simp only [List.map_cons, List.nodup_cons] at hnd
        exact hnd.1 this
      have hnd' : (bs'.map Batch.id).Nodup := by
        simp only [List.map_cons, List.nodup_cons] at hnd
        exact hnd.2
      obtain ⟨rb, h1, h2⟩ := ih hnd' hb'
      exact ⟨rb, by simp [findFile, hne, h1], h2⟩

theorem forall₂_keys_some (root : PyPath) (bs : List Batch)
    (files : List (Option Int × Batch))
    (hf : List.Forall₂ (fun (b : Batch) (f : Option Int × Batch) =>
      f.1 = some b.id ∧ make_paths_absolute root f.2 = .ok b) bs files) :
    ∀ f ∈ files, f.1 ≠ none := by
  induction hf with
  | nil => intro f hf'; cases hf'
  | @cons b0 f0 bs' files' hhead _ ih =>
    intro f hf'
    rcases List.mem_cons.mp hf' with rfl | hf''
    · rw [hhead.1]; exact Option.some_ne_none _
    · exact ih f hf''

/-- C1: for every valid batches structure (supported path-container
shapes, every path absolute and strictly under the workflow root, run ids
unique), `write_batch_files` succeeds and reading every produced batch
file back with `read_batch_file` restores exactly the original batch:
relativization on write followed by absolutization on read is the identity. -/
theorem write_read_batch_roundtrip (root : PyPath) (batches : Batches)
    (hrun : ∀ b ∈ batches.run, wellFormedWriteBatch root b = true)
    (hcol : ∀ c, batches.collect = some c → wellFormedWriteBatch root c = true)
    (hnd : (batches.run.map Batch.id).Nodup) :
    (write_batch_files root batches).2 = none ∧
    (∀ b ∈ batches.run,
      read_batch_file root (write_batch_files root batches).1 (some b.id) = .ok b) ∧
    (∀ c, batches.collect = some c →
      read_batch_file root (write_batch_files root batches).1 none = .ok c) := by
  have hcheck := wf_checkIo root batches hrun hcol
  obtain ⟨files, hw, hf⟩ := writeRun_ok root batches.run hrun
  cases hc : batches.collect with
  | none =>
    have hwb : write_batch_files root batches = (files, none) := by
      unfold write_batch_files
      rw [hcheck, hw, hc]
    refine ⟨by rw [hwb], ?_, ?_⟩
    · intro b hb
      obtain ⟨rb, h1, h2⟩ := findFile_of_forall₂ root batches.run files hf hnd b hb
      rw [hwb]
      simp only [read_batch_file, h1]
      exact h2
    · intro c hcc; simp at hcc
  | some c =>
    obtain ⟨c', hc1, hc2, _⟩ := rt_batch root c (hcol c hc)
    have hwb : write_batch_files root batches = (files ++ [(none, c')], none) := by
      unfold write_batch_files
      simp only [hcheck, hw, hc, hc1]
    refine ⟨by rw [hwb], ?_, ?_⟩
    · intro b hb
      obtain ⟨rb, h1, h2⟩ := findFile_of_forall₂ root batches.run files hf hnd b hb
      rw [hwb]
      simp only [read_batch_file, findFile_append, h1]
      exact h2
    · intro c0 hcc
      have hcc' : c = c0 := by injection hcc
      subst hcc'
      have hkeys := forall₂_keys_some root batches.run files hf
      rw [hwb]
      simp only [read_batch_file, findFile_append,
        findFile_none_of_keys files hkeys, findFile]
      exact hc2

/-! ### Concrete batch structures used by the witnesses and counterexamples -/

def cRoot : PyPath := ⟨true, ["tmaps", "exp1"]⟩

def cB1 : Batch :=
  { id := 1,
    inputs := .dict [("images", .list [.str ⟨true, ["tmaps", "exp1", "img1.png"]⟩,
                                       .str ⟨true, ["tmaps", "exp1", "img2.png"]⟩])],
    outputs := .dict [("stats", .list [.str ⟨true, ["tmaps", "exp1", "align", "out1.csv"]⟩])] }

def cB2 : Batch :=
  { id := 2,
    inputs := .dict [("lut", .dict [("a", .str ⟨true, ["tmaps", "exp1", "a.h5"]⟩),
                                    ("b", .list [.str ⟨true, ["tmaps", "exp1", "b.h5"]⟩])])],
    outputs := .dict [("stats",
      .list [.list [.str ⟨true, ["tmaps", "exp1", "align", "out2.csv"]⟩]])] }

def cCollect : Batch :=
  { id := 0,
    inputs := .dict [("stats", .list [.str ⟨true, ["tmaps", "exp1", "align", "out1.csv"]⟩])],
    outputs := .dict [("final", .list [.str ⟨true, ["tmaps", "exp1", "align", "final.csv"]⟩])] }

def cBatches : Batches := { run := [cB1, cB2], collect := some cCollect }

/-- Witness for the batch round trip at a concrete two-run-batch structure
with a collect batch. -/
theorem write_read_batch_roundtrip_witness :
    (write_batch_files cRoot cBatches).2 = none ∧
    read_batch_file cRoot (write_batch_files cRoot cBatches).1 (some 1) = .ok cB1 ∧
    read_batch_file cRoot (write_batch_files cRoot cBatches).1 (some 2) = .ok cB2 ∧
    read_batch_file cRoot (write_batch_files cRoot cBatches).1 none = .ok cCollect := by
  have h := write_read_batch_roundtrip cRoot cBatches
    (by decide)
    (by
      intro c hc
      have h' : some cCollect = some c := hc
      have he : cCollect = c := by injection h'
      subst he
      decide)
    (by decide)
  refine ⟨h.1, ?_, ?_, h.2.2 cCollect rfl⟩
  · exact h.2.1 cB1 (List.mem_cons_self _ _)
  · exact h.2.1 cB2 (List.mem_cons_of_mem _ (List.mem_cons_self _ _))

/-! ### What `_check_io_description` actually enforces (claim C7) -/

/-- The structural condition `_check_io_description` actually tests:
"inputs"/"outputs" of every run batch and of the collect batch are
dictionaries and every value under "outputs" is a list.  Element types of
"inputs" values are not constrained (the corresponding source check is
vacuous) and output-path uniqueness is not tested at all. -/
def ioStructureOk (batches : Batches) : Bool :=
  batches.run.all (fun b => isDict b.inputs && isDict b.outputs && dictValuesAllLists b.outputs)
    && (match batches.collect with
        | none => true
        | some c => isDict c.inputs && isDict c.outputs && dictValuesAllLists c.outputs)

theorem checkIo_none_iff (batches : Batches) :
    checkIoDescription batches = none ↔ ioStructureOk batches = true := by
  unfold checkIoDescription ioStructureOk
  cases h1 : batches.run.all (fun b => isDict b.inputs) with
  | false =>
    simp only [if_false, Bool.and_eq_true, List.all_eq_true]
    constructor
    · intro h; cases h
    · intro ⟨hall, _⟩
      have hcon : (batches.run.all fun b => isDict b.inputs) = true := by
        rw [List.all_eq_true]; exact fun b hb => ((hall b hb).1).1
      rw [h1] at hcon
      cases hcon
  | true =>
    cases h2 : batches.run.all (fun b => isDict b.outputs) with
    | false =>
      simp only [if_true, if_false, Bool.and_eq_true, List.all_eq_true]
      constructor
      · intro h; cases h
      · intro ⟨hall, _⟩
        have hcon : (batches.run.all fun b => isDict b.outputs) = true := by
          rw [List.all_eq_true]; exact fun b hb => ((hall b hb).1).2
        rw [h2] at hcon
        cases hcon
    | true =>
      cases h3 : batches.run.all (fun b => dictValuesAllLists b.outputs) with
      | false =>
        simp only [if_true, if_false, Bool.and_eq_true, List.all_eq_true]
        constructor
        · intro h; cases h
        · intro ⟨hall, _⟩
          have hcon : (batches.run.all fun b => dictValuesAllLists b.outputs) = true := by
            rw [List.all_eq_true]; exact fun b hb => (hall b hb).2
          rw [h3] at hcon
          cases hcon
      | true =>
        have hrun : batches.run.all
            (fun b => isDict b.inputs && isDict b.outputs && dictValuesAllLists b.outputs)
            = true := by
          rw [List.all_eq_true] at h1 h2 h3 ⊢
          intro b hb
          simp [h1 b hb, h2 b hb, h3 b hb]
        simp only [if_true, hrun, Bool.true_and]
        cases hc : batches.collect with
        | none => simp
        | some c =>
          cases hci : isDict c.inputs with
          | false => simp [hci]
          | true =>
            cases hco : isDict c.outputs with
            | false => simp [hci, hco]
            | true =>
              cases hcl : dictValuesAllLists c.outputs with
              | false => simp [hci, hco, hcl]
              | true => simp [hci, hco, hcl]

theorem writeRun_stops_at_error (root : PyPath) (bs₁ : List Batch) (b : Batch)
    (bs₂ : List Batch) (e : PyError)
    (hok : ∀ b' ∈ bs₁, ∃ x, make_paths_relative root b' = .ok x)
    (hbad : make_paths_relative root b = .error e) :
    ∃ files, writeRunBatches root (bs₁ ++ b :: bs₂) = (files, some e) ∧
      files.length = bs₁.length := by
  induction bs₁ with
  | nil =>
    refine ⟨[], ?_, rfl⟩
    simp [writeRunBatches, hbad]
  | cons b0 bs₁ ih =>
    obtain ⟨x0, hx0⟩ := hok b0 (List.mem_cons_self _ _)
    obtain ⟨files, h1, h2⟩ := ih (fun b' hb' => hok b' (List.mem_cons_of_mem _ hb'))
    refine ⟨(some b0.id, x0) :: files, ?_, by simp [h2]⟩
    simp [writeRunBatches, hx0, h1]

/-- C7 (amended): `write_batch_files` validates only that the
"inputs"/"outputs" entries of every run batch and of the collect batch are
mappings and that every value under "outputs" is a list; when that check
fails a `TypeError` is raised and no batch file is written.  Uniqueness of
output paths and the element types of "inputs" values are not validated.
A value of an unsupported type under "inputs" raises a `TypeError` only
while its own batch is being relativized, after the files of all earlier
run batches have already been written. -/
theorem write_batch_files_validation :
    (∀ batches : Batches, checkIoDescription batches = none ↔ ioStructureOk batches = true) ∧
    (∀ (root : PyPath) (batches : Batches) (e : PyError),
      checkIoDescription batches = some e →
      write_batch_files root batches = ([], some e)) ∧
    (∀ (root : PyPath) (bs₁ : List Batch) (b : Batch) (bs₂ : List Batch)
        (col : Option Batch) (e : PyError),
      checkIoDescription ⟨bs₁ ++ b :: bs₂, col⟩ = none →
      (∀ b' ∈ bs₁, ∃ x, make_paths_relative root b' = .ok x) →
      make_paths_relative root b = .error e →
      ∃ files, write_batch_files root ⟨bs₁ ++ b :: bs₂, col⟩ = (files, some e) ∧
        files.length = bs₁.length) := by
  refine ⟨checkIo_none_iff, ?_, ?_⟩
  · intro root batches e h
    unfold write_batch_files
    rw [h]
  · intro root bs₁ b bs₂ col e hchk hok hbad
    obtain ⟨files, h1, h2⟩ := writeRun_stops_at_error root bs₁ b bs₂ e hok hbad
    refine ⟨files, ?_, h2⟩
    unfold write_batch_files
    simp only [hchk, h1]

def cRoot7 : PyPath := ⟨true, ["tm"]⟩

/-- A run batch whose "outputs" contains the same path twice. -/
def cBad1 : Batch :=
  { id := 1, inputs := .dict [],
    outputs := .dict [("a", .list [.str ⟨true, ["tm", "a.png"]⟩,
                                   .str ⟨true, ["tm", "a.png"]⟩])] }

/-- A run batch with an integer under "inputs" (neither list, dict nor
string). -/
def cBad2 : Batch :=
  { id := 2, inputs := .dict [("x", .int 0)], outputs := .dict [] }

def cBadBatches : Batches := { run := [cBad1, cBad2], collect := none }

/-- A batches structure whose run batch has a non-mapping "inputs". -/
def cInvalidBatches : Batches :=
  { run := [{ id := 1, inputs := .int 5, outputs := .dict [] }], collect := none }

/-- Counterexample to C7 as stated: a batch with duplicate output paths
passes validation, and when a later batch carries an ill-typed "inputs"
value the write fails only after the file of the first batch has already
been written — so validation neither enforces output uniqueness nor
prevents batch files from being written on failure. -/
theorem write_batch_files_validation_counterexample :
    checkIoDescription cBadBatches = none ∧
    (write_batch_files cRoot7 cBadBatches).1.length = 1 ∧
    (write_batch_files cRoot7 cBadBatches).2 =
      some (.typeError "Value of \"inputs\" must have type list or dict.") := by
  decide

/-- Witness for the amended C7 theorem at concrete inputs. -/
theorem write_batch_files_validation_witness :
    checkIoDescription cBadBatches = none ∧
    write_batch_files cRoot7 cInvalidBatches =
      ([], some (.typeError "\"inputs\" must have type dictionary")) ∧
    (write_batch_files cRoot7 cBadBatches).2 =
      some (.typeError "Value of \"inputs\" must have type list or dict.") ∧
    (write_batch_files cRoot7 cBadBatches).1.length = 1 := by
  have hA : checkIoDescription cBadBatches = none :=
    (write_batch_files_validation.1 cBadBatches).mpr (by decide)
  have hB := write_batch_files_validation.2.1 cRoot7 cInvalidBatches
    (.typeError "\"inputs\" must have type dictionary") (by decide)
  have hC := write_batch_files_validation.2.2 cRoot7 [cBad1] cBad2 [] none
    (.typeError "Value of \"inputs\" must have type list or dict.")
    (by decide)
    (by
      intro b' hb'
      have hb'' : b' = cBad1 := by simpa using hb'
      subst hb''
      exact ⟨_, rfl⟩)
    rfl
  obtain ⟨files, h1, h2⟩ := hC
  have h1' : write_batch_files cRoot7 cBadBatches = (files,
      some (.typeError "Value of \"inputs\" must have type list or dict.")) := h1
  exact ⟨hA, hB, by rw [h1'], by rw [h1']; exact h2⟩

/-! ### Reading a batch file rehydrates paths (claim C8) -/

/-- The specified rehydration relation: the second value is the first with
every path string replaced by the workflow root followed by the original
components (the root is prefixed). -/
inductive RehydratedVal (root : PyPath) : PyVal → PyVal → Prop where
  | str (p : PyPath) :
      RehydratedVal root (.str p) (.str ⟨root.isAbs, root.comps ++ p.comps⟩)
  | int (n : Int) : RehydratedVal root (.int n) (.int n)
  | list {vs vs' : List PyVal} : List.Forall₂ (RehydratedVal root) vs vs' →
      RehydratedVal root (.list vs) (.list vs')
  | dict {es es' : List (String × PyVal)} :
      es.map Prod.fst = es'.map Prod.fst →
      List.Forall₂ (RehydratedVal root) (es.map Prod.snd) (es'.map Prod.snd) →
      RehydratedVal root (.dict es) (.dict es')

/-- All elements are relative path strings. -/
def wsRelPaths (vs : List PyVal) : Bool :=
  vs.all fun v =>
    match v with
    | .str p => !p.isAbs
    | _ => false

/-- All elements are lists of relative path strings. -/
def wsRelPathLists (vs : List PyVal) : Bool :=
  vs.all fun v =>
    match v with
    | .list ws => wsRelPaths ws
    | _ => false

/-- A list-shaped container of relative paths, as stored in a batch file. -/
def wsRelListVal : PyVal → Bool
  | .list vs =>
    match vs with
    | [] => true
    | .list _ :: _ => wsRelPathLists vs
    | _ :: _ => wsRelPaths vs
  | _ => false

/-- An inner value of a dictionary under "inputs" in a batch file. -/
def wsRelDictInner : PyVal → Bool
  | .str p => !p.isAbs
  | .list ws => wsRelPaths ws
  | _ => false

/-- A stored value of the "inputs" mapping. -/
def wsRelInputVal : PyVal → Bool
  | .dict es => es.all fun e => wsRelDictInner e.2
  | v => wsRelListVal v

/-- A stored value of the "outputs" mapping (a single string is allowed on
the read path). -/
def wsRelOutputVal : PyVal → Bool
  | .str p => !p.isAbs
  | v => wsRelListVal v

/-- A batch as stored in a batch file: "inputs"/"outputs" are mappings of
the supported container shapes and every stored path is relative. -/
def wellFormedReadBatch (b : Batch) : Bool :=
  wsIOMapWith wsRelInputVal b.inputs && wsIOMapWith wsRelOutputVal b.outputs

theorem joinPath_of_rel (root p : PyPath) (h : (!p.isAbs) = true) :
    joinPath root p = ⟨root.isAbs, root.comps ++ p.comps⟩ := by
  unfold joinPath
  rw [Bool.not_eq_true'] at h
  rw [h]
  simp

theorem js_strList (root : PyPath) (vs : List PyVal) (h : wsRelPaths vs = true) :
    ∃ vs', rewriteStrList (joinPath root) vs = .ok vs' ∧
      List.Forall₂ (RehydratedVal root) vs vs' := by
  induction vs with
  | nil => exact ⟨[], rfl, List.Forall₂.nil⟩
  | cons v vs ih =>
    simp only [wsRelPaths, List.all_cons, Bool.and_eq_true] at h
    obtain ⟨hv, hvs⟩ := h
    obtain ⟨vs', h1, h2⟩ := ih hvs
    cases v with
    | str p =>
      refine ⟨.str ⟨root.isAbs, root.comps ++ p.comps⟩ :: vs', ?_,
        List.Forall₂.cons (RehydratedVal.str p) h2⟩
      simp [rewriteStrList, h1, Except.map, joinPath_of_rel root p hv]
    | int n => simp at hv
    | list ws => simp at hv
    | dict es => simp at hv

theorem js_listOfLists (root : PyPath) (vs : List PyVal) (h : wsRelPathLists vs = true) :
    ∃ vs', rewriteListOfLists (joinPath root) vs = .ok vs' ∧
      List.Forall₂ (RehydratedVal root) vs vs' ∧
      ∀ v' ∈ vs', ∃ ws, v' = PyVal.list ws := by
  induction vs with
  | nil => exact ⟨[], rfl, List.Forall₂.nil, by simp⟩
  | cons v vs ih =>
    simp only [wsRelPathLists, List.all_cons, Bool.and_eq_true] at h
    obtain ⟨hv, hvs⟩ := h
    obtain ⟨vs', h1, h2, h3⟩ := ih hvs
    cases v with
    | list ws =>
      obtain ⟨ws', hw1, hw2⟩ := js_strList root ws hv
      refine ⟨.list ws' :: vs', ?_,
        List.Forall₂.cons (RehydratedVal.list hw2) h2, ?_⟩
      · simp [rewriteListOfLists, hw1, h1, Except.map]
      · intro v' hv'
        rcases List.mem_cons.mp hv' with h' | h'
        · exact ⟨ws', h'⟩
        · exact h3 v' h'
    | str p => simp at hv
    | int n => simp at hv
    | dict es => simp at hv

theorem js_listVal (root : PyPath) (v : PyVal) (h : wsRelListVal v = true) :
    ∃ v', rewriteOutputVal (joinPath root) v = .ok v' ∧
      rewriteInputVal (joinPath root) v = .ok v' ∧ RehydratedVal root v v' := by
  cases v with
  | list vs =>
    cases vs with
    | nil => exact ⟨.list [], rfl, rfl, RehydratedVal.list List.Forall₂.nil⟩
    | cons w ws =>
      cases w with
      | list w0 =>
        have h' : wsRelPathLists (PyVal.list w0 :: ws) = true := h
        obtain ⟨vs', h1, h2, h3⟩ := js_listOfLists root (PyVal.list w0 :: ws) h'
        cases vs' with
        | nil => cases h2
        | cons w' ws' =>
          obtain ⟨w0', hw0'⟩ := h3 w' (List.mem_cons_self _ _)
          subst hw0'
          exact ⟨.list (PyVal.list w0' :: ws'),
            by simp [rewriteOutputVal, h1, Except.map],
            by simp [rewriteInputVal, h1, Except.map],
            RehydratedVal.list h2⟩
      | str p =>
        have h' : wsRelPaths (PyVal.str p :: ws) = true := h
        obtain ⟨vs', h1, h2⟩ := js_strList root (PyVal.str p :: ws) h'
        cases h2 with
        | cons hhead htail =>
          rename_i b' l2'
          cases hhead with
          | str =>
            exact ⟨.list (PyVal.str ⟨root.isAbs, root.comps ++ p.comps⟩ :: l2'),
              by simp [rewriteOutputVal, h1, Except.map],
              by simp [rewriteInputVal, h1, Except.map],
              RehydratedVal.list (List.Forall₂.cons (RehydratedVal.str p) htail)⟩
      | int n => simp [wsRelListVal, wsRelPaths] at h
      | dict es => simp [wsRelListVal, wsRelPaths] at h
  | str p => simp [wsRelListVal] at h
  | int n => simp [wsRelListVal] at h
  | dict es => simp [wsRelListVal] at h

theorem js_dictEntries (root : PyPath) (es : List (String × PyVal))
    (h : ∀ e ∈ es, wsRelDictInner e.2 = true) :
    ∃ es', rewriteDictEntries (joinPath root) es = .ok es' ∧
      es.map Prod.fst = es'.map Prod.fst ∧
      List.Forall₂ (RehydratedVal root) (es.map Prod.snd) (es'.map Prod.snd) := by
  induction es with
  | nil => exact ⟨[], rfl, rfl, List.Forall₂.nil⟩
  | cons e es ih =>
    obtain ⟨es', h1, h2, h3⟩ := ih (fun e' he' => h e' (List.mem_cons_of_mem _ he'))
    have he := h e (List.mem_cons_self _ _)
    obtain ⟨k, v⟩ := e
    cases v with
    | str p =>
      refine ⟨(k, .str ⟨root.isAbs, root.comps ++ p.comps⟩) :: es', ?_, ?_, ?_⟩
      · simp [rewriteDictEntries, h1, Except.map, joinPath_of_rel root p he]
      · simpa using h2
      · exact List.Forall₂.cons (RehydratedVal.str p) h3
    | list ws =>
      obtain ⟨ws', hw1, hw2⟩ := js_strList root ws he
      refine ⟨(k, .list ws') :: es', ?_, ?_, ?_⟩
      · simp [rewriteDictEntries, hw1, h1, Except.map]
      · simpa using h2
      · exact List.Forall₂.cons (RehydratedVal.list hw2) h3
    | int n => simp [wsRelDictInner] at he
    | dict es2 => simp [wsRelDictInner] at he

theorem js_inputVal (root : PyPath) (v : PyVal) (h : wsRelInputVal v = true) :
    ∃ v', rewriteInputVal (joinPath root) v = .ok v' ∧ RehydratedVal root v v' := by
  cases v with
  | dict es =>
    have h' : ∀ e ∈ es, wsRelDictInner e.2 = true := by
      simp only [wsRelInputVal, List.all_eq_true] at h
      exact fun e he => h e he
    obtain ⟨es', h1, h2, h3⟩ := js_dictEntries root es h'
    exact ⟨.dict es', by simp [rewriteInputVal, h1, Except.map],
      RehydratedVal.dict h2 h3⟩
  | list vs =>
    obtain ⟨v', h1, h2, h3⟩ := js_listVal root (.list vs) h
    exact ⟨v', h2, h3⟩
  | str p => simp [wsRelInputVal, wsRelListVal] at h
  | int n => simp [wsRelInputVal, wsRelListVal] at h

theorem js_outputVal (root : PyPath) (v : PyVal) (h : wsRelOutputVal v = true) :
    ∃ v', rewriteOutputVal (joinPath root) v = .ok v' ∧ RehydratedVal root v v' := by
  cases v with
  | str p =>
    have hp : (!p.isAbs) = true := h
    exact ⟨.str ⟨root.isAbs, root.comps ++ p.comps⟩,
      by simp [rewriteOutputVal, joinPath_of_rel root p hp],
      RehydratedVal.str p⟩
  | list vs =>
    obtain ⟨v', h1, h2, h3⟩ := js_listVal root (.list vs) h
    exact ⟨v', h1, h3⟩
  | int n => simp [wsRelOutputVal, wsRelListVal] at h
  | dict es => simp [wsRelOutputVal, wsRelListVal] at h

theorem js_ioEntries (root : PyPath) (g : PyVal → Except PyError PyVal)
    (es : List (String × PyVal))
    (h : ∀ e ∈ es, ∃ v', g e.2 = .ok v' ∧ RehydratedVal root e.2 v') :
    ∃ es', rewriteIOEntries g es = .ok es' ∧
      es.map Prod.fst = es'.map Prod.fst ∧
      List.Forall₂ (RehydratedVal root) (es.map Prod.snd) (es'.map Prod.snd) := by
  induction es with
  | nil => exact ⟨[], rfl, rfl, List.Forall₂.nil⟩
  | cons e es ih =>
    obtain ⟨es', h1, h2, h3⟩ := ih (fun e' he' => h e' (List.mem_cons_of_mem _ he'))
    obtain ⟨v', hv1, hv2⟩ := h e (List.mem_cons_self _ _)
    refine ⟨(e.1, v') :: es', ?_, by simpa using h2, List.Forall₂.cons hv2 h3⟩
    simp [rewriteIOEntries, hv1, h1, Except.map]

/-- Success predicate for a batch-file read: the read returned a batch
whose id equals the stored one and whose "inputs"/"outputs" stand in the
rehydration relation (every stored path prefixed by the workflow root) to
the stored values. -/
def ReadsRehydrated (root : PyPath) (files : List (Option Int × Batch))
    (name : Option Int) (b : Batch) : Prop :=
  match read_batch_file root files name with
  | .ok b' => b'.id = b.id ∧ RehydratedVal root b.inputs b'.inputs ∧
      RehydratedVal root b.outputs b'.outputs
  | .error _ => False

/-- C8: reading a single batch file fails with the `WorkflowError`
pointing at the uninitialized step exactly when the file is absent; when
the file exists and holds a well-formed relative-path batch, the read
succeeds and returns the stored batch with every path under
"inputs"/"outputs" rehydrated to an absolute path by prefixing the
workflow root. -/
theorem read_batch_file_spec (root : PyPath) (files : List (Option Int × Batch))
    (name : Option Int) :
    (findFile files name = none → read_batch_file root files name = .error (.workflowError
      "Job description file does not exist. Initialize the step first by calling the init method.")) ∧
    (∀ b, findFile files name = some b → wellFormedReadBatch b = true →
      ReadsRehydrated root files name b) := by
  constructor
  · intro h
    unfold read_batch_file
    rw [h]
  · intro b hfind hwf
    simp only [wellFormedReadBatch, Bool.and_eq_true] at hwf
    obtain ⟨hin, hout⟩ := hwf
    cases hbi : b.inputs with
    | dict ies =>
      cases hbo : b.outputs with
      | dict oes =>
        rw [hbi] at hin
        rw [hbo] at hout
        simp only [wsIOMapWith, List.all_eq_true] at hin hout
        obtain ⟨ies', hi1, hi2, hi3⟩ := js_ioEntries root
          (rewriteInputVal (joinPath root)) ies
          (fun e he => js_inputVal root e.2 (hin e he))
        obtain ⟨oes', ho1, ho2, ho3⟩ := js_ioEntries root
          (rewriteOutputVal (joinPath root)) oes
          (fun e he => js_outputVal root e.2 (hout e he))
        have habs : make_paths_absolute root b =
            .ok { b with inputs := .dict ies', outputs := .dict oes' } := by
          unfold make_paths_absolute
          rw [hbi, hbo]
          simp only [rewriteIOMap, hi1, ho1, Except.map]
        have hread : read_batch_file root files name =
            .ok { b with inputs := .dict ies', outputs := .dict oes' } := by
          unfold read_batch_file
          rw [hfind]
          exact habs
        unfold ReadsRehydrated
        rw [hread]
        exact ⟨rfl, by rw [hbi]; exact RehydratedVal.dict hi2 hi3,
          by rw [hbo]; exact RehydratedVal.dict ho2 ho3⟩
      | str p => rw [hbo] at hout; simp [wsIOMapWith] at hout
      | int n => rw [hbo] at hout; simp [wsIOMapWith] at hout
      | list vs => rw [hbo] at hout; simp [wsIOMapWith] at hout
    | str p => rw [hbi] at hin; simp [wsIOMapWith] at hin
    | int n => rw [hbi] at hin; simp [wsIOMapWith] at hin
    | list vs => rw [hbi] at hin; simp [wsIOMapWith] at hin

/-- A stored batch with relative paths, as read back from disk. -/
def cRelBatch : Batch :=
  { id := 3,
    inputs := .dict [("i", .list [.str ⟨false, ["img.png"]⟩])],
    outputs := .dict [("o", .str ⟨false, ["out.csv"]⟩)] }

/-- Witness for the read specification: a missing file raises the
`WorkflowError` and reading a present well-formed file rehydrates it. -/
theorem read_batch_file_spec_witness :
    read_batch_file cRoot7 [] (some 1) = .error (.workflowError
      "Job description file does not exist. Initialize the step first by calling the init method.") ∧
    ReadsRehydrated cRoot7 [(some 3, cRelBatch)] (some 3) cRelBatch := by
  refine ⟨(read_batch_file_spec cRoot7 [] (some 1)).1 rfl, ?_⟩
  exact (read_batch_file_spec cRoot7 [(some 3, cRelBatch)] (some 3)).2
    cRelBatch rfl (by decide)

/-! ### Resource overrides in `create_run_jobs` (claim C9) -/

/-- The job `create_run_jobs` produces for one id when the `cores`
validation is not triggered: walltime and memory are set exactly when the
corresponding argument is truthy, `requestedCores` is the given value. -/
def plainRunJob (stepName : String) (verbosity : Nat) (experimentId submissionId : Int)
    (duration : Option String) (memory : Option Int) (coresVal : Option Int)
    (j : Int) : RunJob :=
  { stepName := stepName, jobId := j, submissionId := submissionId,
    arguments := buildRunCommand stepName verbosity experimentId j,
    requestedWalltime := if durationTruthy duration then duration else Option.none,
    requestedMemory := if memoryTruthy memory then memory else Option.none,
    requestedCores := coresVal }

theorem makeRunJob_not_truthy (stepName : String) (verbosity : Nat)
    (experimentId submissionId : Int) (duration : Option String) (memory : Option Int)
    (cores : PyCores) (j : Int) (h : coresTruthy cores = false) :
    makeRunJob stepName verbosity experimentId submissionId duration memory cores j =
      .ok (plainRunJob stepName verbosity experimentId submissionId duration memory
        Option.none j) := by
  cases hd : durationTruthy duration <;> cases hm : memoryTruthy memory <;>
    simp [makeRunJob, plainRunJob, hd, hm, h]

theorem makeRunJob_pos_int (stepName : String) (verbosity : Nat)
    (experimentId submissionId : Int) (duration : Option String) (memory : Option Int)
    (n : Int) (j : Int) (h : 0 < n) :
    makeRunJob stepName verbosity experimentId submissionId duration memory (.int n) j =
      .ok (plainRunJob stepName verbosity experimentId submissionId duration memory
        (some n) j) := by
  have ht : coresTruthy (.int n) = true := by
    simp only [coresTruthy, bne_iff_ne, ne_eq, decide_eq_true_eq]
    omega
  cases hd : durationTruthy duration <;> cases hm : memoryTruthy memory <;>
    simp [makeRunJob, plainRunJob, hd, hm, ht, h]

/-- C9 (amended): each resource override is applied exactly when the
corresponding argument is truthy under the Python `if argument:` test, so
`cores=0` — although given and not a positive integer — is silently treated
as absent and the call succeeds without setting `requested_cores`; only a
truthy `cores` is validated, failing with a `TypeError` when it is not an
integer and with a `ValueError` when it is a negative integer. -/
theorem create_run_jobs_overrides (stepName : String) (verbosity : Nat)
    (experimentId submissionId : Int) (jobIds : List Int)
    (duration : Option String) (memory : Option Int) :
    (∀ cores : PyCores, coresTruthy cores = false →
      create_run_jobs stepName verbosity experimentId submissionId jobIds duration memory cores =
        .ok (jobIds.map (plainRunJob stepName verbosity experimentId submissionId
          duration memory Option.none))) ∧
    (∀ n : Int, 0 < n →
      create_run_jobs stepName verbosity experimentId submissionId jobIds duration memory (.int n) =
        .ok (jobIds.map (plainRunJob stepName verbosity experimentId submissionId
          duration memory (some n)))) ∧
    (∀ n : Int, n < 0 → jobIds ≠ [] →
      create_run_jobs stepName verbosity experimentId submissionId jobIds duration memory (.int n) =
        .error (.valueError "The value of \"cores\" must be positive.")) ∧
    (jobIds ≠ [] →
      create_run_jobs stepName verbosity experimentId submissionId jobIds duration memory .nonIntTruthy =
        .error (.typeError "Argument \"cores\" must have type int.")) := by
  refine ⟨?_, ?_, ?_, ?_⟩
  · intro cores h
    induction jobIds with
    | nil => rfl
    | cons j rest ih =>
      simp [create_run_jobs, makeRunJob_not_truthy _ _ _ _ _ _ _ _ h, ih]
  · intro n h
    induction jobIds with
    | nil => rfl
    | cons j rest ih =>
      simp [create_run_jobs, makeRunJob_pos_int _ _ _ _ _ _ _ _ h, ih]
  · intro n hneg hne
    cases jobIds with
    | nil => exact absurd rfl hne
    | cons j rest =>
      have ht : coresTruthy (.int n) = true := by
        simp only [coresTruthy, bne_iff_ne, ne_eq, decide_eq_true_eq]
        omega
      have hbad : makeRunJob stepName verbosity experimentId submissionId duration memory
          (.int n) j = .error (.valueError "The value of \"cores\" must be positive.") := by
        have hnp : ¬ (0 < n) := by omega
        simp [makeRunJob, ht, hnp]
      simp [create_run_jobs, hbad]
  · intro hne
    cases jobIds with
    | nil => exact absurd rfl hne
    | cons j rest =>
      have hbad : makeRunJob stepName verbosity experimentId submissionId duration memory
          .nonIntTruthy j = .error (.typeError "Argument \"cores\" must have type int.") := by
        simp [makeRunJob, coresTruthy]
      simp [create_run_jobs, hbad]

/-- Counterexample to C9 as stated: `cores = 0` is given and is not a
positive integer, yet `create_run_jobs` does not fail — the Python
`if cores:` truthiness gate skips the validation entirely and a job
collection is produced with no cores request. -/
theorem create_run_jobs_zero_cores_counterexample :
    create_run_jobs "metaextract" 0 1 5 [1] Option.none Option.none (.int 0) =
      .ok [{ stepName := "metaextract", jobId := 1, submissionId := 5,
             arguments := ["metaextract", "1", "run", "--job", "1"] }] := by
  rfl

/-- Witness for the amended C9 theorem at concrete inputs. -/
theorem create_run_jobs_overrides_witness :
    create_run_jobs "metaextract" 1 1 5 [1, 2] (some "01:00:00") (some 2000) (.int 2) =
      .ok ([1, 2].map (plainRunJob "metaextract" 1 1 5 (some "01:00:00") (some 2000)
        (some 2))) ∧
    create_run_jobs "metaextract" 0 1 5 [1] Option.none Option.none (.int (-1)) =
      .error (.valueError "The value of \"cores\" must be positive.") ∧
    create_run_jobs "metaextract" 0 1 5 [1] Option.none Option.none .nonIntTruthy =
      .error (.typeError "Argument \"cores\" must have type int.") := by
  refine ⟨?_, ?_, ?_⟩
  · exact (create_run_jobs_overrides "metaextract" 1 1 5 [1, 2]
      (some "01:00:00") (some 2000)).2.1 2 (by decide)
  · exact (create_run_jobs_overrides "metaextract" 0 1 5 [1]
      Option.none Option.none).2.2.1 (-1) (by decide) (by simp)
  · exact (create_run_jobs_overrides "metaextract" 0 1 5 [1]
      Option.none Option.none).2.2.2 (by simp)

/-! ### Shard range partitioning (claim C2) -/

/-- Default element used with `List.getD` over shard specifications. -/
def dSpec : ShardSpec := ⟨0, 0, 0, 0, 0⟩

theorem customize_length (shardIds : List Nat) :
    (customizeDistributedTables shardIds).length = shardIds.length := by
  simp [customizeDistributedTables]

theorem customize_getD (shardIds : List Nat) (i : Nat) (h : i < shardIds.length) :
    (customizeDistributedTables shardIds).getD i dSpec =
      { shardId := shardIds.getD i 0,
        minValue := i * (totalMaxValue / shardIds.length) + 1,
        maxValue := (i + 1) * (totalMaxValue / shardIds.length),
        seqMinValue := i * (totalMaxValue / shardIds.length) + 1,
        seqMaxValue := (i + 1) * (totalMaxValue / shardIds.length) } := by
  unfold customizeDistributedTables
  rw [List.getD_eq_getElem?_getD]
  simp [List.getElem?_map, List.getElem?_range, h]

/-- C2 (amended): for N ≥ 1 shards the assigned ranges are contiguous,
equal-width (width `⌊(2^63-1)/N⌋`), non-overlapping and ordered ascending
by position in the `ORDER BY shardid` result, and each shard receives one
id sequence bounded to exactly its range; however the union of the ranges
is exactly `[1, N*⌊(2^63-1)/N⌋]`, which covers `[1, 2^63-1]` with no gap
only when N divides `2^63-1` — otherwise the top `(2^63-1) mod N` keys of
the space remain unassigned. -/
theorem customize_distributed_tables_ranges (shardIds : List Nat)
    (hne : shardIds ≠ []) (hle : shardIds.length ≤ totalMaxValue) :
    (customizeDistributedTables shardIds).length = shardIds.length ∧
    (customizeDistributedTables shardIds).map ShardSpec.shardId = shardIds ∧
    (∀ i, i < shardIds.length →
      ((customizeDistributedTables shardIds).getD i dSpec).minValue =
          i * (totalMaxValue / shardIds.length) + 1 ∧
        ((customizeDistributedTables shardIds).getD i dSpec).maxValue =
          (i + 1) * (totalMaxValue / shardIds.length) ∧
        ((customizeDistributedTables shardIds).getD i dSpec).seqMinValue =
          ((customizeDistributedTables shardIds).getD i dSpec).minValue ∧
        ((customizeDistributedTables shardIds).getD i dSpec).seqMaxValue =
          ((customizeDistributedTables shardIds).getD i dSpec).maxValue) ∧
    (∀ i, i + 1 < shardIds.length →
      ((customizeDistributedTables shardIds).getD (i + 1) dSpec).minValue =
        ((customizeDistributedTables shardIds).getD i dSpec).maxValue + 1) ∧
    (∀ i, i < shardIds.length →
      ((customizeDistributedTables shardIds).getD i dSpec).maxValue + 1 =
        ((customizeDistributedTables shardIds).getD i dSpec).minValue
          + totalMaxValue / shardIds.length) ∧
    (∀ i j, i < j → j < shardIds.length →
      ((customizeDistributedTables shardIds).getD i dSpec).maxValue <
        ((customizeDistributedTables shardIds).getD j dSpec).minValue) ∧
    (∀ k, (1 ≤ k ∧ k ≤ shardIds.length * (totalMaxValue / shardIds.length)) ↔
      ∃ i, i < shardIds.length ∧
        ((customizeDistributedTables shardIds).getD i dSpec).minValue ≤ k ∧
        k ≤ ((customizeDistributedTables shardIds).getD i dSpec).maxValue) ∧
    (shardIds.length * (totalMaxValue / shardIds.length) ≤ totalMaxValue ∧
      (shardIds.length * (totalMaxValue / shardIds.length) = totalMaxValue ↔
        shardIds.length ∣ totalMaxValue)) := by
  have hn : 0 < shardIds.length := List.length_pos.mpr hne
  have hb : 0 < totalMaxValue / shardIds.length :=
    Nat.div_pos hle hn
  refine ⟨customize_length shardIds, ?_, ?_, ?_, ?_, ?_, ?_, ?_, ?_⟩
  · unfold customizeDistributedTables
    rw [List.map_map]
    apply List.ext_getElem
    · simp
    · intro i h1 h2
      simp [List.getElem_map, List.getElem_range, List.getElem?_eq_getElem h2]
  · intro i hi
    rw [customize_getD shardIds i hi]
    exact ⟨rfl, rfl, rfl, rfl⟩
  · intro i hi
    rw [customize_getD shardIds i (by omega), customize_getD shardIds (i + 1) hi]
  · intro i hi
    rw [customize_getD shardIds i hi]
    dsimp only
    ring
  · intro i j hij hj
    rw [customize_getD shardIds i (by omega), customize_getD shardIds j hj]
    dsimp only
    have : (i + 1) * (totalMaxValue / shardIds.length) ≤
        j * (totalMaxValue / shardIds.length) :=
      Nat.mul_le_mul_right _ (by omega)
    omega
  · intro k
    constructor
    · rintro ⟨hk1, hk2⟩
      set b := totalMaxValue / shardIds.length with hbdef
      refine ⟨(k - 1) / b, ?_, ?_, ?_⟩
      · by_contra hcon
        push_neg at hcon
        have h1 : shardIds.length * b ≤ (k - 1) / b * b :=
          Nat.mul_le_mul_right _ hcon
        have h2 : (k - 1) / b * b ≤ k - 1 := Nat.div_mul_le_self _ _
        omega
      · rw [customize_getD shardIds _ (by
          by_contra hcon
          push_neg at hcon
          have h1 : shardIds.length * b ≤ (k - 1) / b * b :=
            Nat.mul_le_mul_right _ hcon
          have h2 : (k - 1) / b * b ≤ k - 1 := Nat.div_mul_le_self _ _
          omega)]
        dsimp only
        rw [← hbdef]
        have h2 : (k - 1) / b * b ≤ k - 1 := Nat.div_mul_le_self _ _
        omega
      · rw [customize_getD shardIds _ (by
          by_contra hcon
          push_neg at hcon
          have h1 : shardIds.length * b ≤ (k - 1) / b * b :=
            Nat.mul_le_mul_right _ hcon
          have h2 : (k - 1) / b * b ≤ k - 1 := Nat.div_mul_le_self _ _
          omega)]
        dsimp only
        rw [← hbdef]
        have h3 := Nat.div_add_mod (k - 1) b
        have h4 : (k - 1) % b < b := Nat.mod_lt _ hb
        have h5 : ((k - 1) / b + 1) * b = (k - 1) / b * b + b := by ring
        have h6 : b * ((k - 1) / b) = (k - 1) / b * b := by ring
        omega
    · rintro ⟨i, hi, hmin, hmax⟩
      rw [customize_getD shardIds i hi] at hmin hmax
      dsimp only at hmin hmax
      have h1 : (i + 1) * (totalMaxValue / shardIds.length) ≤
          shardIds.length * (totalMaxValue / shardIds.length) :=
        Nat.mul_le_mul_right _ (by omega)
      omega
  · calc shardIds.length * (totalMaxValue / shardIds.length)
        = totalMaxValue / shardIds.length * shardIds.length := by ring
      _ ≤ totalMaxValue := Nat.div_mul_le_self _ _
  · constructor
    · intro h
      exact ⟨totalMaxValue / shardIds.length, h.symm⟩
    · intro h
      rw [Nat.mul_div_cancel' h]

/-- Counterexample to C2 as stated: with two shards the ranges end at
`2*⌊(2^63-1)/2⌋ = 2^63-2`, so the key `2^63-1` lies above every assigned
range — the union does not cover `[1, 2^63-1]`. -/
theorem customize_distributed_tables_coverage_counterexample :
    customizeDistributedTables [101, 102] =
      [⟨101, 1, 4611686018427387903, 1, 4611686018427387903⟩,
       ⟨102, 4611686018427387904, 9223372036854775806, 4611686018427387904,
        9223372036854775806⟩] ∧
    (customizeDistributedTables [101, 102]).all
      (fun s => decide (s.maxValue < totalMaxValue)) = true := by
  constructor
  · rfl
  · rfl

/-- Witness for the amended C2 theorem with four shards. -/
theorem customize_distributed_tables_ranges_witness :
    (customizeDistributedTables [11, 22, 33, 44]).length = 4 ∧
    (customizeDistributedTables [11, 22, 33, 44]).map ShardSpec.shardId = [11, 22, 33, 44] ∧
    ((customizeDistributedTables [11, 22, 33, 44]).getD 2 dSpec).minValue =
      2 * (totalMaxValue / 4) + 1 ∧
    ((customizeDistributedTables [11, 22, 33, 44]).getD 3 dSpec).minValue =
      ((customizeDistributedTables [11, 22, 33, 44]).getD 2 dSpec).maxValue + 1 := by
  have h := customize_distributed_tables_ranges [11, 22, 33, 44] (by simp) (by decide)
  exact ⟨h.1, h.2.1, (h.2.2.1 2 (by decide)).1, h.2.2.2.1 2 (by decide)⟩

/-! ### `get_or_create` race recovery (claim C3) -/

/-- C3: `get_or_create` first performs the unique lookup and returns a
found row as is; if the lookup finds nothing it inserts and commits the
newly constructed instance; if that insert fails with an `IntegrityError`
it rolls back and performs exactly one re-read, whose result — the row the
concurrent writer created, or the failure of that final read — becomes the
result of the call; any returned instance matches the given attributes. -/
theorem get_or_create_spec {Row : Type} (matchesAttrs : Row → Prop)
    (firstLookup : Except PyError Row) (insert : Option PyError) (newRow : Row)
    (reread : Except PyError Row)
    (hfirst : ∀ r, firstLookup = .ok r → matchesAttrs r)
    (hre : ∀ r, reread = .ok r → matchesAttrs r)
    (hnew : matchesAttrs newRow) :
    (∀ r, firstLookup = .ok r →
      get_or_create firstLookup insert newRow reread = .ok r) ∧
    (firstLookup = .error .noResultFound → insert = Option.none →
      get_or_create firstLookup insert newRow reread = .ok newRow) ∧
    (firstLookup = .error .noResultFound → insert = some .integrityError →
      get_or_create firstLookup insert newRow reread = reread) ∧
    (∀ r, get_or_create firstLookup insert newRow reread = .ok r → matchesAttrs r) := by
  refine ⟨?_, ?_, ?_, ?_⟩
  · intro r h
    rw [h]
    rfl
  · intro h1 h2
    rw [h1, h2]
    rfl
  · intro h1 h2
    rw [h1, h2]
    cases reread <;> rfl
  · intro r h
    unfold get_or_create at h
    cases hf : firstLookup with
    | ok r0 =>
      rw [hf] at h
      injection h with h'
      exact h' ▸ hfirst r0 hf
    | error e =>
      rw [hf] at h
      cases e with
      | noResultFound =>
        cases hi : insert with
        | none =>
          rw [hi] at h
          injection h with h'
          exact h' ▸ hnew
        | some ei =>
          rw [hi] at h
          cases ei with
          | integrityError =>
            cases hr : reread with
            | ok r1 =>
              rw [hr] at h
              injection h with h'
              exact h' ▸ hre r1 hr
            | error e1 => rw [hr] at h; cases h
          | typeError m => cases h
          | valueError m => cases h
          | attributeError m => cases h
          | workflowError m => cases h
          | nameError m => cases h
          | noResultFound => cases h
          | multipleResultsFound => cases h
          | operationalError => cases h
      | typeError m => cases h
      | valueError m => cases h
      | attributeError m => cases h
      | workflowError m => cases h
      | nameError m => cases h
      | integrityError => cases h
      | multipleResultsFound => cases h
      | operationalError => cases h

/-- Witness for `get_or_create` on the uniqueness-race path: the first
lookup finds nothing, the insert hits the concurrent writer, and the
re-read returns the winning row. -/
theorem get_or_create_spec_witness :
    get_or_create (Except.error PyError.noResultFound : Except PyError Int)
      (some .integrityError) 7 (.ok 7) = .ok 7 ∧ (7 : Int) = 7 := by
  have h := get_or_create_spec (fun r : Int => r = 7)
    (.error .noResultFound) (some .integrityError) 7 (.ok 7)
    (by intro r hr; simp at hr)
    (by intro r hr; injection hr with h'; exact h'.symm)
    rfl
  exact ⟨h.2.2.1 rfl rfl, rfl⟩

/-! ### Bulk delete of filesystem-backed models (claims C4, C5, C10) -/

theorem collectPhase_single_fs (cls : ModelCls)
    (hd : cls.isDistributed = false) (he : cls.name ≠ "Experiment")
    (her : cls.name ≠ "ExperimentReference")
    (hl : cls.hasUnderscoreLocation = true ∨ cls.hasLocation = true) :
    collectPhase [cls] = .ok ([DeleteEvent.collectLocations cls.name], cls.locations) := by
  rcases hl with h | h
  · simp [collectPhase, hd, h, he, her]
  · cases hu : cls.hasUnderscoreLocation with
    | true => simp [collectPhase, hd, hu, he, her]
    | false => simp [collectPhase, hd, hu, h, he, her]

/-- C4: a bulk delete over a filesystem-backed (location-bearing) model
class first collects the on-disk locations of the affected rows, then
performs the bulk row delete, then expires the stale cached session rows,
and only then removes the collected (non-NULL) locations from disk; if the
row delete raises, the error propagates and no location has been removed. -/
theorem query_delete_filesystem_backed (cls : ModelCls) (rowDeleteFails : Bool)
    (hd : cls.isDistributed = false)
    (he : cls.name ≠ "Experiment") (her : cls.name ≠ "ExperimentReference")
    (hl : cls.hasUnderscoreLocation = true ∨ cls.hasLocation = true) :
    (rowDeleteFails = true →
      queryDelete [cls] rowDeleteFails =
        ([DeleteEvent.collectLocations cls.name], some .rowDeleteError)) ∧
    (rowDeleteFails = false →
      queryDelete [cls] rowDeleteFails =
        ([DeleteEvent.collectLocations cls.name, DeleteEvent.rowDelete,
          DeleteEvent.expireAll]
          ++ (cls.locations.filterMap id).map DeleteEvent.removeLocation, none)) := by
  have hc := collectPhase_single_fs cls hd he her hl
  constructor
  · intro h
    subst h
    simp [queryDelete, hc]
  · intro h
    subst h
    simp [queryDelete, hc]

/-- A typical filesystem-backed, non-distributed model class with one NULL
location among the matched rows. -/
def cChannelCls : ModelCls :=
  { name := "Channel", isDistributed := false, hasUnderscoreLocation := false,
    hasLocation := true,
    locations := [some "/data/ch1", Option.none, some "/data/ch2"],
    experimentIds := [] }

/-- Witness for the delete ordering on a concrete filesystem-backed class:
on failure only the collection step has happened; on success the trace is
collect, row delete, expire, then the two non-NULL locations. -/
theorem query_delete_filesystem_backed_witness :
    queryDelete [cChannelCls] true =
      ([DeleteEvent.collectLocations "Channel"], some .rowDeleteError) ∧
    queryDelete [cChannelCls] false =
      ([DeleteEvent.collectLocations "Channel", DeleteEvent.rowDelete,
        DeleteEvent.expireAll, DeleteEvent.removeLocation "/data/ch1",
        DeleteEvent.removeLocation "/data/ch2"], none) := by
  constructor
  · exact (query_delete_filesystem_backed cChannelCls true rfl (by decide) (by decide)
      (Or.inr rfl)).1 rfl
  · have h := (query_delete_filesystem_backed cChannelCls false rfl (by decide) (by decide)
      (Or.inr rfl)).2 rfl
    rw [h]
    rfl

/-- C10: a bulk delete over a model class whose table is distributed
raises the `ValueError` before anything happens: the event trace is empty,
so no database row, no schema and no on-disk location is touched. -/
theorem query_delete_distributed (cls : ModelCls) (rowDeleteFails : Bool)
    (hd : cls.isDistributed = true) :
    queryDelete [cls] rowDeleteFails = ([], some (.distributedError cls.name)) := by
  simp [queryDelete, collectPhase, hd]

/-- A distributed model class (e.g. mapobjects). -/
def cMapobjectCls : ModelCls :=
  { name := "Mapobject", isDistributed := true, hasUnderscoreLocation := false,
    hasLocation := false, locations := [], experimentIds := [] }

/-- Witness for the distributed-delete guard. -/
theorem query_delete_distributed_witness :
    queryDelete [cMapobjectCls] false = ([], some (.distributedError "Mapobject")) :=
  query_delete_distributed cMapobjectCls false rfl

/-- The tenancy-root class: the experiment reference owning schemas of the
matched experiments (here experiment 7). -/
def cExpRefCls : ModelCls :=
  { name := "ExperimentReference", isDistributed := false,
    hasUnderscoreLocation := false, hasLocation := false, locations := [],
    experimentIds := [7] }

/-- Counterexample to C5 as stated: deleting the tenancy-root entity
(`ExperimentReference`) through the generic bulk-delete path does not fail
at all — the schema of the owned experiment is dropped inline by the
generic path and the rows are then deleted. -/
theorem tenancy_root_delete_counterexample :
    queryDelete [cExpRefCls] false =
      ([DeleteEvent.dropSchema "experiment_7", DeleteEvent.rowDelete,
        DeleteEvent.expireAll], none) := by
  rfl

/-- C5 (amended): the generic bulk delete fails fast — with the
`ValueError` directing callers to delete the corresponding reference
object, and before any row, schema or location is touched — for the
`Experiment` model; deleting the tenancy-root `ExperimentReference`
through the generic path is allowed: it drops the schema of each owned
experiment (cascade) exactly once, in order, and then deletes the rows. -/
theorem tenancy_root_delete_behavior (cls : ModelCls) (rowDeleteFails : Bool) :
    (cls.name = "Experiment" → cls.isDistributed = false →
      cls.hasUnderscoreLocation = false → cls.hasLocation = true →
      queryDelete [cls] rowDeleteFails =
        ([DeleteEvent.collectLocations "Experiment"], some .experimentError)) ∧
    (cls.name = "ExperimentReference" → cls.isDistributed = false →
      cls.hasUnderscoreLocation = false → cls.hasLocation = false →
      queryDelete [cls] false =
        (cls.experimentIds.map (fun i => DeleteEvent.dropSchema (schemaName i))
          ++ [DeleteEvent.rowDelete, DeleteEvent.expireAll], none)) := by
  constructor
  · intro hn hd hu hl
    simp [queryDelete, collectPhase, hd, hu, hl, hn]
  · intro hn hd hu hl
    have hne1 : ¬ (("ExperimentReference" : String) = "Experiment") := by decide
    simp [queryDelete, collectPhase, hd, hu, hl, hn, hne1]

/-- The `Experiment` model class (filesystem-backed, not distributed). -/
def cExperimentCls : ModelCls :=
  { name := "Experiment", isDistributed := false, hasUnderscoreLocation := false,
    hasLocation := true, locations := [some "/data/exp"], experimentIds := [] }

/-- Witness for the amended C5 theorem: the `Experiment` delete fails fast
and the `ExperimentReference` delete drops schema `experiment_7` once. -/
theorem tenancy_root_delete_behavior_witness :
    queryDelete [cExperimentCls] false =
      ([DeleteEvent.collectLocations "Experiment"], some .experimentError) ∧
    queryDelete [cExpRefCls] false =
      ([DeleteEvent.dropSchema (schemaName 7), DeleteEvent.rowDelete,
        DeleteEvent.expireAll], none) := by
  refine ⟨(tenancy_root_delete_behavior cExperimentCls false).1 rfl rfl rfl rfl, ?_⟩
  have h := (tenancy_root_delete_behavior cExpRefCls false).2 rfl rfl rfl rfl
  rw [h]
  rfl

/-! ### Schema bootstrap ordering on session and connection entry
(claim C6) -/

/-- C6 (code bug in the raw-connection path): on first entry of an
`ExperimentSession` for a not-yet-existing experiment schema the schema is
created, then all experiment-scoped tables, then the distributed tables
are customized, in that order, before the session is handed out, and on a
later entry none of these steps run again; but the same first entry
through `ExperimentConnection` raises `NameError` (the source references
the undefined name `connection` instead of `self._connection`) after
table creation, so the distributed tables are never customized on that
path. -/
theorem experiment_enter_first_creation :
    experimentSessionEnter false =
      ([EnterEvent.createSchema, EnterEvent.createTables, EnterEvent.customizeTables,
        EnterEvent.setSearchPath, EnterEvent.openSession], none) ∧
    experimentSessionEnter true =
      ([EnterEvent.setSearchPath, EnterEvent.openSession], none) ∧
    experimentConnectionEnter false =
      ([EnterEvent.createSchema, EnterEvent.createTables],
        some (.nameError "connection")) ∧
    experimentConnectionEnter true =
      ([EnterEvent.setSearchPath, EnterEvent.openCursor], none) := by
  exact ⟨rfl, rfl, rfl, rfl⟩
